import Mathlib

/-!
Shallow embedding of the visneb pipeline (src/utils.py, src/visneb_vmd.py,
src/visneb_chart.py).  File contents are modelled as lists of line strings,
raster images as records of their observable attributes, and a scratch
directory as an association list from filename to content.
-/

namespace Visneb

/-- Python slice `l[-n:]` for a non-negative `n`.  For `n = 0` the slice is
`l[-0:] = l[0:]`, the whole list; for `n > 0` it starts at
`max(len(l) - n, 0)`, which truncated `Nat` subtraction gives directly. -/
def pySliceLastN (l : List α) (n : Nat) : List α :=
  if n = 0 then l else l.drop (l.length - n)

/-- Zero-padded 3-digit rendering of `i`, Python `f"{i:03d}"` (minimum width
3; wider numbers are kept whole). -/
def pad3 (i : Nat) : String :=
  if i < 10 then "00" ++ toString i
  else if i < 100 then "0" ++ toString i
  else toString i

/-- Result of `extractMEPImages` (src/utils.py:11-37): the selected
trajectory tail `neb = images[-nimages:]`, the two returned filename lists,
and the files written to the scratch directory, in write order. -/
structure ExtractResult (α : Type) where
  neb : List α
  poscars : List String
  xyzs : List String
  written : List (String × α)
deriving DecidableEq

/-- `extractMEPImages(traj, nimages, tmpdir)` from src/utils.py:11-37, taking
the already-read trajectory `images` as input.  The loop writes
`image_{i:03d}.POSCAR` and `image_{i:03d}.xyz` for each selected structure
and collects the two name lists that are returned. -/
def extractMEPImages (images : List α) (nimages : Nat) : ExtractResult α :=
  let neb := pySliceLastN images nimages
  { neb := neb
    poscars := neb.enum.map (fun p => "image_" ++ pad3 p.1 ++ ".POSCAR")
    xyzs := neb.enum.map (fun p => "image_" ++ pad3 p.1 ++ ".xyz")
    written := neb.enum.flatMap
      (fun p => [("image_" ++ pad3 p.1 ++ ".POSCAR", p.2),
                 ("image_" ++ pad3 p.1 ++ ".xyz", p.2)]) }

/-- Modelled from the spec: the Frame Selector/Exporter contract as §4.1
words it — fails with `InvalidRequest` (here `none`) unless `N` is a
positive integer at most the trajectory length, in which case it behaves as
the exporter does.  Used to compare the spec's contract with the code. -/
def extractMEPImagesSpec (images : List α) (nimages : Nat) :
    Option (ExtractResult α) :=
  if 0 < nimages ∧ nimages ≤ images.length then
    some (extractMEPImages images nimages)
  else none

/-- The whitespace characters Python's `str.strip()` removes (the ASCII
ones; strings are modelled as their code-point sequences throughout). -/
def isPySpace (c : Char) : Bool :=
  c = ' ' ∨ c = '\t' ∨ c = '\n' ∨ c = '\r' ∨ c = '\x0b' ∨ c = '\x0c'

/-- Python `s.strip()`: remove leading and trailing whitespace. -/
def pyStrip (cs : List Char) : List Char :=
  ((cs.dropWhile isPySpace).reverse.dropWhile isPySpace).reverse

/-- The banned command beginnings of `sanitizeStyleVMD`
(src/visneb_vmd.py:38-41). -/
def bannedStarts : List String := ["mol new", "mol delrep"]

/-- A line is dropped when its stripped text starts with a banned command
beginning: `stripped = line.strip()` and `any(stripped.startswith(p) ...)`
(src/visneb_vmd.py:45-49). -/
def isBannedLine (line : String) : Bool :=
  bannedStarts.any (fun p => List.isPrefixOf p.toList (pyStrip line.toList))

/-- `sanitizeStyleVMD` (src/visneb_vmd.py:31-54) on the file's lines: the
read loop skips every line whose stripped text starts with a banned command
beginning (`continue`) and keeps the others verbatim; the kept lines are
then written back. -/
def sanitizeStyleVMD : List String → List String
  | [] => []
  | line :: rest =>
    if isBannedLine line then sanitizeStyleVMD rest
    else line :: sanitizeStyleVMD rest

/-- On-disk contents reachable while `sanitizeStyleVMD` rewrites the file in
place (src/visneb_vmd.py:53-54): `open(style_path, "w")` truncates the file
immediately and `f.writelines(cleaned)` then appends the kept lines one
after another, so before completion the file holds a prefix of `cleaned`. -/
def rewriteStates (cleaned : List String) : List (List String) :=
  (List.range (cleaned.length + 1)).map (fun k => cleaned.take k)

/-- Tcl `format "%02d" i`: zero-padded to a minimum width of two digits. -/
def tclFormat02d (i : Nat) : String :=
  if i < 10 then "0" ++ toString i else toString i

/-- Output name `frame_%02d.tga` used by the generated render loop
(src/visneb_vmd.py:101). -/
def frameTgaName (i : Nat) : String :=
  "frame_" ++ tclFormat02d i ++ ".tga"

/-- Semantics of the loop emitted by `createVMDRenderScript`
(src/visneb_vmd.py:89-108): `set i 0` then for each listed file, render it
to `frame_%02d.tga` of the counter and `incr i`. -/
def renderLoop : List String → Nat → List (String × String)
  | [], _ => []
  | f :: rest, i => (f, frameTgaName i) :: renderLoop rest (i + 1)

/-- The generated `render.tcl` (src/visneb_vmd.py:56-110), by section: the
filenames written into the `set files` block (the
`for i, file in enumerate(xyzs)` loop writes them in list order) and the
render commands the frame loop performs, with the counter starting at 0. -/
structure RenderScript where
  fileSection : List String
  renders : List (String × String)
deriving DecidableEq

/-- `createVMDRenderScript(tmpdir, xyzs)` (src/visneb_vmd.py:56-110). -/
def createVMDRenderScript (xyzs : List String) : RenderScript :=
  { fileSection := xyzs, renders := renderLoop xyzs 0 }

/-- A raster image as the post-processor observes it: a PIL mode string and
abstract pixel data (the pixel re-encoding done by `convert` belongs to the
external library and is abstracted as carrying the data over). -/
structure PILImage where
  mode : String
  data : Nat
deriving DecidableEq

/-- PIL `im.convert(target)`: the result has the target mode. -/
def pilConvert (target : String) (img : PILImage) : PILImage :=
  { mode := target, data := img.data }

/-- Loop body of `tga2png` (src/utils.py:81-86): a mode outside RGB/RGBA is
converted to RGBA, any other image is kept as a defensive copy
(`im.copy()`), which leaves it unchanged. -/
def convertFrame (img : PILImage) : PILImage :=
  if img.mode = "RGB" ∨ img.mode = "RGBA" then img
  else pilConvert "RGBA" img

/-- Core of `Path.with_suffix` on the reversed character list: drop the
final extension (up to and including the last dot); a name without a dot is
kept whole. -/
def revDropExt (rcs : List Char) : List Char :=
  match rcs.dropWhile (fun c => c ≠ '.') with
  | [] => rcs
  | _ :: rest => rest

/-- `tga.with_suffix(".png")` (src/utils.py:79): the name with its last
extension replaced by `.png`. -/
def withSuffixPng (name : String) : String :=
  String.mk ((revDropExt name.toList.reverse).reverse ++ ".png".toList)

/-- `fnmatch`-style test for the glob pattern `frame_*.tga`
(src/utils.py:78). -/
def isTgaFrame (name : String) : Bool :=
  List.isPrefixOf "frame_".toList name.toList &&
    List.isSuffixOf ".tga".toList name.toList

/-- Code-point comparison of character lists, the order Python's `sorted`
uses on strings. -/
def charListLe : List Char → List Char → Bool
  | [], _ => true
  | _ :: _, [] => false
  | a :: as, b :: bs => if a = b then charListLe as bs else decide (a < b)

/-- `sorted(tmpdir.glob("frame_*.tga"))` (src/utils.py:78): the matching
directory entries in ascending name order (insertion sort, stable like
Python's sort). -/
def sortByName (files : List (String × PILImage)) : List (String × PILImage) :=
  List.insertionSort (fun a b => charListLe a.1.toList b.1.toList = true) files

/-- `tga2png` (src/utils.py:63-91) applied to the selected TGA entries: each
is converted by `convertFrame` and saved under the `.png` name. -/
def tga2png (tgas : List (String × PILImage)) : List (String × PILImage) :=
  tgas.map (fun e => (withSuffixPng e.1, convertFrame e.2))

/-- The scratch directory after `tga2png`: the new PNG files are written and
every pre-existing entry is retained (nothing is deleted). -/
def tga2pngDir (dir : List (String × PILImage)) : List (String × PILImage) :=
  dir ++ tga2png (sortByName (dir.filter (fun e => isTgaFrame e.1)))

/-- An input raster image for the montage: its pixel dimensions. -/
structure Img where
  width : Nat
  height : Nat
deriving DecidableEq

/-- An entry of the `normalized` list of `createPNGmontage`
(src/utils.py:113-121): either the original image appended unchanged, or a
fresh canvas of the stated size and fill with the original pasted at the
stated top offset. -/
inductive NormImg where
  | plain (img : Img)
  | canvas (w h top : Nat) (bg : Nat × Nat × Nat × Nat) (img : Img)
deriving DecidableEq

def NormImg.width : NormImg → Nat
  | .plain img => img.width
  | .canvas w _ _ _ _ => w

def NormImg.height : NormImg → Nat
  | .plain img => img.height
  | .canvas _ h _ _ _ => h

/-- `max(img.height for img in images)` (src/utils.py:111), folded from 0,
which the maximum of non-negative heights absorbs on a non-empty list. -/
def maxHeight (imgs : List Img) : Nat :=
  (imgs.map Img.height).foldl max 0

/-- Loop body src/utils.py:114-121: an image whose height differs from
`max_h` is pasted at `(0, (max_h - img.height)//2)` onto an RGBA canvas
`(img.width, max_h)` filled `(255,255,255,0)`; otherwise the image itself is
appended. -/
def normalizeImg (maxH : Nat) (img : Img) : NormImg :=
  if img.height ≠ maxH then
    NormImg.canvas img.width maxH ((maxH - img.height) / 2) (255, 255, 255, 0) img
  else NormImg.plain img

/-- The paste loop src/utils.py:127-130: starting from `x = 0`, each image is
pasted at `(x, 0)` and `x` advances by the image's width. -/
def placeImgs : List NormImg → Nat → List (Nat × NormImg)
  | [], _ => []
  | img :: rest, x => (x, img) :: placeImgs rest (x + img.width)

/-- The finished montage: canvas size and fill (src/utils.py:125) and the
placements performed on it. -/
structure Montage where
  width : Nat
  height : Nat
  bg : Nat × Nat × Nat × Nat
  placements : List (Nat × NormImg)
deriving DecidableEq

/-- `createPNGmontage` (src/utils.py:94-131) after the images are loaded. -/
def createPNGmontage (imgs : List Img) : Montage :=
  let maxH := maxHeight imgs
  let normalized := imgs.map (normalizeImg maxH)
  let totalW := (normalized.map NormImg.width).sum
  { width := totalW, height := maxH, bg := (255, 255, 255, 0),
    placements := placeImgs normalized 0 }

/-- `re.match(r"image_(\d{3})\.POSCAR", name)` on the characters of `name`:
`re.match` anchors at the start only, so the pattern has to match an initial
segment of the name; the parsed capture group is the 3-digit index. -/
def matchImageChars : List Char → Option Nat
  | 'i' :: 'm' :: 'a' :: 'g' :: 'e' :: '_' :: d1 :: d2 :: d3 :: rest =>
    if d1.isDigit && d2.isDigit && d3.isDigit &&
        List.isPrefixOf ".POSCAR".toList rest then
      some (100 * (d1.toNat - 48) + 10 * (d2.toNat - 48) + (d3.toNat - 48))
    else none
  | _ => none

/-- The matcher of `bandPlotChart` (src/visneb_chart.py:79). -/
def matchImagePOSCAR (name : String) : Option Nat :=
  matchImageChars name.toList

/-- The discovery loop of `bandPlotChart` (src/visneb_chart.py:80-85):
matching names contribute `(int(m.group(1)), f)`, the rest are skipped. -/
def collectFiles (names : List String) : List (Nat × String) :=
  names.filterMap (fun n => (matchImagePOSCAR n).map (fun i => (i, n)))

/-- `files.sort(key=lambda x: x[0])` (src/visneb_chart.py:90): stable sort
ascending by the parsed index. -/
def sortFiles (files : List (Nat × String)) : List (Nat × String) :=
  List.insertionSort (fun a b => a.1 ≤ b.1) files

/-- The order in which `bandPlotChart` processes the discovered files. -/
def bandPlotOrder (names : List String) : List (Nat × String) :=
  sortFiles (collectFiles names)

instance : IsTotal (Nat × String) (fun a b => a.1 ≤ b.1) :=
  ⟨fun a b => Nat.le_total a.1 b.1⟩

instance : IsTrans (Nat × String) (fun a b => a.1 ≤ b.1) :=
  ⟨fun _ _ _ h1 h2 => Nat.le_trans h1 h2⟩

/-- `np.min` of a collected energy sequence (energies are modelled as exact
rationals). -/
def listMin : List ℚ → ℚ
  | [] => 0
  | x :: xs => xs.foldl min x

/-- `energies -= energies.min()` (src/visneb_chart.py:106): the baseline
shift, applied once to the whole collected sequence. -/
def shiftEnergies (es : List ℚ) : List ℚ :=
  es.map (fun e => e - listMin es)

/-- Concrete style-file lines used as witness input. -/
def styleLinesW : List String :=
  ["mol new image_000.xyz type xyz\n",
   "  mol delrep 0 top\n",
   "  mol representation CPK\n",
   "display resetview\n"]

/-- Concrete banned-free style-file lines used as witness input. -/
def cleanLinesW : List String :=
  ["axes location Off\n", "  color Display Background gray\n"]

/-- Concrete montage input used as witness input. -/
def imgsW : List Img := [⟨4, 10⟩, ⟨3, 9⟩]

/-- Concrete scratch-directory contents used as witness input. -/
def dirW : List (String × PILImage) :=
  [("frame_00.tga", ⟨"P", 3⟩), ("frame_01.tga", ⟨"RGB", 7⟩),
   ("style.vmd", ⟨"TXT", 0⟩)]

/-! ### Helper lemmas -/

theorem sanitize_eq_filter (lines : List String) :
    sanitizeStyleVMD lines = lines.filter (fun line => !isBannedLine line) := by
  induction lines with
  | nil => rfl
  | cons l rest ih =>
    by_cases h : isBannedLine l
    · simp [sanitizeStyleVMD, List.filter_cons, h, ih]
    · simp [sanitizeStyleVMD, List.filter_cons, h, ih]

theorem pySliceLastN_pos {l : List α} {n : Nat} (h : n ≠ 0) :
    pySliceLastN l n = l.drop (l.length - n) := by
  simp [pySliceLastN, h]

theorem enum_map_comp_fst (l : List α) (f : Nat → β) :
    l.enum.map (fun p => f p.1) = (List.range l.length).map f := by
  rw [show (fun p : Nat × α => f p.1) = f ∘ Prod.fst from rfl, ← List.map_map,
    List.enum_map_fst]

theorem length_flatMap_pair (l : List β) (f g : β → γ) :
    (l.flatMap (fun b => [f b, g b])).length = 2 * l.length := by
  induction l with
  | nil => rfl
  | cons b rest ih => simp only [List.flatMap_cons, List.length_append,
      List.length_cons, List.length_nil, ih]; omega

theorem renderLoop_length (files : List String) (start : Nat) :
    (renderLoop files start).length = files.length := by
  induction files generalizing start with
  | nil => rfl
  | cons f rest ih => simp [renderLoop, ih]

theorem renderLoop_getElem? (files : List String) (start i : Nat) :
    (renderLoop files start)[i]? =
      (files[i]?).map (fun f => (f, frameTgaName (start + i))) := by
  induction files generalizing start i with
  | nil => simp [renderLoop]
  | cons f rest ih =>
    cases i with
    | zero => simp [renderLoop]
    | succ j =>
      have h := ih (start + 1) j
      simp only [renderLoop, List.getElem?_cons_succ, h]
      have : start + 1 + j = start + (j + 1) := by omega
      rw [this]

theorem renderLoop_snd_indep (xs : List String) :
    ∀ (ys : List String) (start : Nat), xs.length = ys.length →
      (renderLoop xs start).map Prod.snd = (renderLoop ys start).map Prod.snd := by
  induction xs with
  | nil =>
    intro ys start h
    cases ys with
    | nil => rfl
    | cons y ys => exact absurd h (by simp)
  | cons x xs ih =>
    intro ys start h
    cases ys with
    | nil => exact absurd h (by simp)
    | cons y ys =>
      simp only [renderLoop, List.map_cons]
      rw [ih ys (start + 1) (by simpa using h)]

theorem normalizeImg_width (maxH : Nat) (img : Img) :
    (normalizeImg maxH img).width = img.width := by
  unfold normalizeImg
  split <;> rfl

theorem map_width_norm (maxH : Nat) (l : List Img) :
    (l.map (normalizeImg maxH)).map NormImg.width = l.map Img.width := by
  rw [List.map_map]
  exact List.map_congr_left (fun im _ => normalizeImg_width maxH im)

theorem placeImgs_length (l : List NormImg) (x0 : Nat) :
    (placeImgs l x0).length = l.length := by
  induction l generalizing x0 with
  | nil => rfl
  | cons im rest ih => simp [placeImgs, ih]

theorem placeImgs_getElem? (l : List NormImg) (x0 i : Nat) :
    (placeImgs l x0)[i]? =
      (l[i]?).map (fun im => (x0 + ((l.take i).map NormImg.width).sum, im)) := by
  induction l generalizing x0 i with
  | nil => simp [placeImgs]
  | cons im rest ih =>
    cases i with
    | zero => simp [placeImgs]
    | succ j =>
      have h := ih (x0 + im.width) j
      simp only [placeImgs, List.getElem?_cons_succ, h, List.take_succ_cons,
        List.map_cons, List.sum_cons, Nat.add_assoc]

theorem le_foldl_max_init (l : List Nat) (a : Nat) : a ≤ l.foldl max a := by
  induction l generalizing a with
  | nil => exact Nat.le_refl a
  | cons x xs ih => exact Nat.le_trans (Nat.le_max_left a x) (ih (max a x))

theorem le_foldl_max_mem (l : List Nat) :
    ∀ (a x : Nat), x ∈ l → x ≤ l.foldl max a := by
  induction l with
  | nil => intro a x hx; cases hx
  | cons y ys ih =>
    intro a x hx
    rcases List.mem_cons.mp hx with h | h
    · subst h
      exact Nat.le_trans (Nat.le_max_right a x) (le_foldl_max_init ys (max a x))
    · exact ih (max a y) x h

theorem foldl_max_mem_or (l : List Nat) :
    ∀ a : Nat, l.foldl max a = a ∨ l.foldl max a ∈ l := by
  induction l with
  | nil => intro a; exact Or.inl rfl
  | cons x xs ih =>
    intro a
    rcases ih (max a x) with h | h
    · rcases Nat.le_total a x with hax | hxa
      · right
        rw [List.foldl_cons, h, Nat.max_eq_right hax]
        exact List.mem_cons_self x xs
      · left
        rw [List.foldl_cons, h, Nat.max_eq_left hxa]
    · right
      rw [List.foldl_cons]
      exact List.mem_cons_of_mem x h

theorem maxHeight_is_max (imgs : List Img) (h : imgs ≠ []) :
    (∀ im ∈ imgs, im.height ≤ maxHeight imgs) ∧
    (∃ im ∈ imgs, im.height = maxHeight imgs) := by
  constructor
  · intro im him
    exact le_foldl_max_mem (imgs.map Img.height) 0 im.height
      (List.mem_map_of_mem Img.height him)
  · rcases foldl_max_mem_or (imgs.map Img.height) 0 with h0 | hmem
    · cases imgs with
      | nil => exact absurd rfl h
      | cons im rest =>
        refine ⟨im, List.mem_cons_self im rest, ?_⟩
        have hle : im.height ≤ maxHeight (im :: rest) :=
          le_foldl_max_mem ((im :: rest).map Img.height) 0 im.height
            (List.mem_map_of_mem Img.height (List.mem_cons_self im rest))
        have : maxHeight (im :: rest) = 0 := h0
        omega
    · rcases List.mem_map.mp hmem with ⟨im, him, heq⟩
      exact ⟨im, him, heq⟩

/-! ### C2: sanitization keeps exactly the non-banned lines -/

/-- C2: sanitization drops a line iff its whitespace-stripped text starts
with a banned command beginning ("mol new" / "mol delrep"); every other
line, including lines with leading whitespace before non-banned text, is
kept verbatim, and the relative order of kept lines is preserved (the
output is the sublist of the input selected by exactly that predicate). -/
theorem sanitizeStyleVMD_drops_iff (lines : List String) :
    sanitizeStyleVMD lines = lines.filter (fun line => !isBannedLine line) ∧
    (sanitizeStyleVMD lines).Sublist lines ∧
    (∀ line : String, line ∈ sanitizeStyleVMD lines ↔
      (line ∈ lines ∧ isBannedLine line = false)) := by
  refine ⟨sanitize_eq_filter lines, ?_, ?_⟩
  · rw [sanitize_eq_filter]
    exact List.filter_sublist lines
  · intro line
    rw [sanitize_eq_filter, List.mem_filter]
    simp

/-- Witness for C2 at a concrete style file: the "mol new" line and the
indented "mol delrep" line are dropped, the indented non-banned "mol
representation" line passes through. -/
theorem sanitizeStyleVMD_drops_iff_witness :
    sanitizeStyleVMD styleLinesW =
      styleLinesW.filter (fun line => !isBannedLine line) ∧
    ("  mol representation CPK\n" ∈ sanitizeStyleVMD styleLinesW ↔
      ("  mol representation CPK\n" ∈ styleLinesW ∧
        isBannedLine "  mol representation CPK\n" = false)) ∧
    sanitizeStyleVMD styleLinesW =
      ["  mol representation CPK\n", "display resetview\n"] :=
  ⟨(sanitizeStyleVMD_drops_iff styleLinesW).1,
   (sanitizeStyleVMD_drops_iff styleLinesW).2.2 "  mol representation CPK\n",
   by decide⟩

/-! ### C7: sanitization is idempotent -/

/-- C7: sanitizing twice equals sanitizing once, and sanitizing a file that
contains no banned-command line leaves it unchanged. -/
theorem sanitizeStyleVMD_idempotent (lines : List String) :
    sanitizeStyleVMD (sanitizeStyleVMD lines) = sanitizeStyleVMD lines ∧
    ((∀ line ∈ lines, isBannedLine line = false) →
      sanitizeStyleVMD lines = lines) := by
  constructor
  · rw [sanitize_eq_filter lines,
      sanitize_eq_filter (lines.filter (fun line => !isBannedLine line)),
      List.filter_filter]
    congr 1
    funext a
    cases isBannedLine a <;> rfl
  · intro h
    rw [sanitize_eq_filter]
    refine List.filter_eq_self.mpr (fun a ha => ?_)
    simp [h a ha]

/-- Witness for C7 at a concrete banned-free style file. -/
theorem sanitizeStyleVMD_idempotent_witness :
    sanitizeStyleVMD (sanitizeStyleVMD cleanLinesW) =
      sanitizeStyleVMD cleanLinesW ∧
    sanitizeStyleVMD cleanLinesW = cleanLinesW :=
  ⟨(sanitizeStyleVMD_idempotent cleanLinesW).1,
   (sanitizeStyleVMD_idempotent cleanLinesW).2 (by decide)⟩

/-! ### C9: the in-place rewrite is not failure-atomic -/

/-- C9: failing input for the in-place rewrite.  `sanitizeStyleVMD` opens
the style file with `open(style_path, "w")`, which truncates it at once, and
then writes the kept lines sequentially; an I/O failure during the write
leaves a proper prefix of the sanitized lines on disk.  For the two-line
banned-free file below, the reachable intermediate states include the empty
file and the one-line file, neither of which is the original or the fully
sanitized content — contradicting the claimed original-or-sanitized
guarantee. -/
theorem sanitizeStyleVMD_partial_write_state :
    ["line one\n"] ∈
      rewriteStates (sanitizeStyleVMD ["line one\n", "line two\n"]) ∧
    ([] : List String) ∈
      rewriteStates (sanitizeStyleVMD ["line one\n", "line two\n"]) ∧
    sanitizeStyleVMD ["line one\n", "line two\n"] =
      ["line one\n", "line two\n"] ∧
    ["line one\n"] ≠ (["line one\n", "line two\n"] : List String) ∧
    ["line one\n"] ≠ sanitizeStyleVMD ["line one\n", "line two\n"] := by
  decide

/-! ### C1: frame export with an over-large request does not fail -/

/-- C1 counterexample: for a 2-frame trajectory and requested count 3 the
exporter does not fail and does return file-name lists — `images[-3:]`
clamps, both frames are exported (4 files written) — whereas the
spec-modelled contract (`extractMEPImagesSpec`) rejects the request. -/
theorem extractMEPImages_no_invalid_request :
    (extractMEPImages [10, 20] 3).poscars =
      ["image_000.POSCAR", "image_001.POSCAR"] ∧
    (extractMEPImages [10, 20] 3).neb = [10, 20] ∧
    (extractMEPImages [10, 20] 3).written.length = 4 ∧
    extractMEPImagesSpec [10, 20] 3 = none := by
  decide

/-- C1 (amended): for a positive requested count N the exporter never
fails: when N is at most the trajectory length it exports exactly the last
N structures, returning the two zero-padded 3-digit-indexed name lists and
writing 2·N files; when N exceeds the trajectory length the slice clamps
and the whole trajectory is exported instead of failing. -/
theorem extractMEPImages_lastN (l : List α) (n : Nat) (h : 0 < n) :
    (l.length < n → (extractMEPImages l n).neb = l) ∧
    (n ≤ l.length →
      ((extractMEPImages l n).neb = l.drop (l.length - n) ∧
        (extractMEPImages l n).neb.length = n ∧
        (extractMEPImages l n).poscars =
          (List.range n).map (fun i => "image_" ++ pad3 i ++ ".POSCAR") ∧
        (extractMEPImages l n).xyzs =
          (List.range n).map (fun i => "image_" ++ pad3 i ++ ".xyz") ∧
        (extractMEPImages l n).written.length = 2 * n)) := by
  have hne : n ≠ 0 := Nat.pos_iff_ne_zero.mp h
  have hneb : (extractMEPImages l n).neb = l.drop (l.length - n) := by
    simp [extractMEPImages, pySliceLastN_pos hne]
  constructor
  · intro hlt
    rw [hneb, Nat.sub_eq_zero_of_le (Nat.le_of_lt hlt), List.drop_zero]
  · intro hle
    have hlen : (pySliceLastN l n).length = n := by
      rw [pySliceLastN_pos hne, List.length_drop]
      omega
    refine ⟨hneb, ?_, ?_, ?_, ?_⟩
    · rw [hneb, List.length_drop]; omega
    · show (pySliceLastN l n).enum.map _ = _
      have h2 := enum_map_comp_fst (pySliceLastN l n)
        (fun i => "image_" ++ pad3 i ++ ".POSCAR")
      rw [hlen] at h2
      exact h2
    · show (pySliceLastN l n).enum.map _ = _
      have h2 := enum_map_comp_fst (pySliceLastN l n)
        (fun i => "image_" ++ pad3 i ++ ".xyz")
      rw [hlen] at h2
      exact h2
    · show ((pySliceLastN l n).enum.flatMap _).length = _
      rw [length_flatMap_pair, List.enum_length, hlen]

/-- Witness for C1 (amended) at a 3-frame trajectory with N = 2. -/
theorem extractMEPImages_lastN_witness :
    ((extractMEPImages [5, 7, 9] 2).neb =
        [5, 7, 9].drop (([5, 7, 9] : List ℕ).length - 2) ∧
      (extractMEPImages [5, 7, 9] 2).neb.length = 2 ∧
      (extractMEPImages [5, 7, 9] 2).poscars =
        (List.range 2).map (fun i => "image_" ++ pad3 i ++ ".POSCAR") ∧
      (extractMEPImages [5, 7, 9] 2).xyzs =
        (List.range 2).map (fun i => "image_" ++ pad3 i ++ ".xyz") ∧
      (extractMEPImages [5, 7, 9] 2).written.length = 2 * 2) ∧
    (extractMEPImages [5, 7, 9] 2).poscars =
      ["image_000.POSCAR", "image_001.POSCAR"] :=
  ⟨(extractMEPImages_lastN [5, 7, 9] 2 (by decide)).2 (by decide), by decide⟩

/-! ### C10: a request of 0 exports the whole trajectory -/

/-- C10: with requested count 0 (outside the spec's positive-N
precondition) the slice `images[-0:]` selects the whole trajectory, so for
a trajectory of length L the exporter writes 2·L files and returns L
filenames of each kind — not zero frames. -/
theorem extractMEPImages_zero_request (α : Type) (l : List α) :
    (extractMEPImages l 0).neb = l ∧
    (extractMEPImages l 0).poscars.length = l.length ∧
    (extractMEPImages l 0).xyzs.length = l.length ∧
    (extractMEPImages l 0).written.length = 2 * l.length := by
  refine ⟨rfl, ?_, ?_, ?_⟩
  · show ((pySliceLastN l 0).enum.map _).length = _
    rw [List.length_map, List.enum_length]; rfl
  · show ((pySliceLastN l 0).enum.map _).length = _
    rw [List.length_map, List.enum_length]; rfl
  · show ((pySliceLastN l 0).enum.flatMap _).length = _
    rw [length_flatMap_pair, List.enum_length]; rfl

/-! ### C3: the render loop is position-indexed -/

/-- C3: the loop of the generated render script emits exactly one render
command per input filename, in input order; the i-th command renders the
i-th filename to `frame_%02d.tga` of the zero-based list position, and the
output names depend only on the list positions, never on digits embedded in
the filenames (any equally long input list yields the same output names). -/
theorem createVMDRenderScript_loop (xyzs : List String) :
    (createVMDRenderScript xyzs).fileSection = xyzs ∧
    (createVMDRenderScript xyzs).renders.length = xyzs.length ∧
    (∀ i : Nat, (createVMDRenderScript xyzs).renders[i]? =
      (xyzs[i]?).map (fun f => (f, "frame_" ++ tclFormat02d i ++ ".tga"))) ∧
    (∀ ys : List String, ys.length = xyzs.length →
      (createVMDRenderScript xyzs).renders.map Prod.snd =
        (createVMDRenderScript ys).renders.map Prod.snd) := by
  refine ⟨rfl, renderLoop_length xyzs 0, ?_, ?_⟩
  · intro i
    have h := renderLoop_getElem? xyzs 0 i
    rw [Nat.zero_add] at h
    exact h
  · intro ys h
    exact renderLoop_snd_indep xyzs ys 0 h.symm

/-- Witness for C3: two filenames, one carrying an unrelated embedded
number, render to `frame_00.tga` and `frame_01.tga` in list order; a
different equally long list yields the same output names. -/
theorem createVMDRenderScript_loop_witness :
    ((["q.xyz", "r.xyz"] : List String).length =
      (["b.xyz", "image_007.xyz"] : List String).length) ∧
    ((createVMDRenderScript ["b.xyz", "image_007.xyz"]).renders.map Prod.snd =
      (createVMDRenderScript ["q.xyz", "r.xyz"]).renders.map Prod.snd) ∧
    (createVMDRenderScript ["b.xyz", "image_007.xyz"]).renders =
      [("b.xyz", "frame_00.tga"), ("image_007.xyz", "frame_01.tga")] :=
  ⟨by decide,
   (createVMDRenderScript_loop ["b.xyz", "image_007.xyz"]).2.2.2
     ["q.xyz", "r.xyz"] (by decide),
   by decide⟩

/-! ### C4: montage geometry -/

/-- C4: for a non-empty image list the montage canvas is transparent, its
width is the sum of the input widths, its height is the maximum input
height; the i-th placement sits at the cumulative x-offset (sum of the
widths before it, hence no overlap and no gap) and carries the i-th image
normalized: an image of non-maximal height is wrapped in a transparent
canvas of its own width and the maximal height with top offset
`(max_h - h)/2`, while an image at maximal height passes through
unchanged. -/
theorem createPNGmontage_layout (imgs : List Img) (h : imgs ≠ []) :
    (createPNGmontage imgs).width = (imgs.map Img.width).sum ∧
    (createPNGmontage imgs).height = maxHeight imgs ∧
    (∀ im ∈ imgs, im.height ≤ maxHeight imgs) ∧
    (∃ im ∈ imgs, im.height = maxHeight imgs) ∧
    (createPNGmontage imgs).bg = (255, 255, 255, 0) ∧
    (createPNGmontage imgs).placements.length = imgs.length ∧
    (∀ i : Nat, (createPNGmontage imgs).placements[i]? =
      (imgs[i]?).map (fun im =>
        (((imgs.take i).map Img.width).sum, normalizeImg (maxHeight imgs) im))) ∧
    (∀ i : Nat, ∀ hi : i < imgs.length,
      ((imgs.take (i + 1)).map Img.width).sum =
        ((imgs.take i).map Img.width).sum + (imgs.get ⟨i, hi⟩).width) ∧
    (∀ im : Img, im.height ≠ maxHeight imgs →
      normalizeImg (maxHeight imgs) im =
        NormImg.canvas im.width (maxHeight imgs)
          ((maxHeight imgs - im.height) / 2) (255, 255, 255, 0) im) ∧
    (∀ im : Img, im.height = maxHeight imgs →
      normalizeImg (maxHeight imgs) im = NormImg.plain im) := by
  refine ⟨?_, rfl, (maxHeight_is_max imgs h).1, (maxHeight_is_max imgs h).2,
    rfl, ?_, ?_, ?_, ?_, ?_⟩
  · show ((imgs.map (normalizeImg (maxHeight imgs))).map NormImg.width).sum = _
    rw [map_width_norm]
  · show (placeImgs (imgs.map (normalizeImg (maxHeight imgs))) 0).length = _
    rw [placeImgs_length, List.length_map]
  · intro i
    show (placeImgs (imgs.map (normalizeImg (maxHeight imgs))) 0)[i]? = _
    rw [placeImgs_getElem?, List.getElem?_map, Option.map_map]
    have harg : (imgs.map (normalizeImg (maxHeight imgs))).take i =
        (imgs.take i).map (normalizeImg (maxHeight imgs)) := (List.map_take _ _ _).symm
    rw [harg, map_width_norm]
    cases imgs[i]? <;> simp
  · intro i hi
    have h2 := List.sum_take_succ (imgs.map Img.width) i (by simpa using hi)
    rw [← List.map_take, ← List.map_take] at h2
    rw [h2]
    congr 1
    simp [List.getElem_map]
  · intro im him
    simp [normalizeImg, him]
  · intro im him
    simp [normalizeImg, him]

/-- Witness for C4 at two concrete images 4×10 and 3×9: total width 7,
height 10, the shorter image is wrapped with top offset (10-9)/2 = 0, the
taller one passes through, placements at x = 0 and x = 4. -/
theorem createPNGmontage_layout_witness :
    (createPNGmontage imgsW).width = (imgsW.map Img.width).sum ∧
    (createPNGmontage imgsW).height = maxHeight imgsW ∧
    (createPNGmontage imgsW).width = 7 ∧
    (createPNGmontage imgsW).height = 10 ∧
    (createPNGmontage imgsW).placements =
      [(0, NormImg.plain ⟨4, 10⟩),
       (4, NormImg.canvas 3 10 0 (255, 255, 255, 0) ⟨3, 9⟩)] :=
  ⟨(createPNGmontage_layout imgsW (by decide)).1,
   (createPNGmontage_layout imgsW (by decide)).2.1,
   by decide, by decide, by decide⟩

/-! ### C5: the baseline shift -/

theorem foldl_min_le_init (l : List ℚ) (a : ℚ) : l.foldl min a ≤ a := by
  induction l generalizing a with
  | nil => exact le_refl a
  | cons x xs ih => exact le_trans (ih (min a x)) (min_le_left a x)

theorem foldl_min_le_mem (l : List ℚ) :
    ∀ (a x : ℚ), x ∈ l → l.foldl min a ≤ x := by
  induction l with
  | nil => intro a x hx; cases hx
  | cons y ys ih =>
    intro a x hx
    rcases List.mem_cons.mp hx with h | h
    · subst h
      exact le_trans (foldl_min_le_init ys (min a x)) (min_le_right a x)
    · exact ih (min a y) x h

theorem foldl_min_mem_or (l : List ℚ) :
    ∀ a : ℚ, l.foldl min a = a ∨ l.foldl min a ∈ l := by
  induction l with
  | nil => intro a; exact Or.inl rfl
  | cons x xs ih =>
    intro a
    rcases ih (min a x) with h | h
    · rcases le_total a x with hax | hxa
      · left
        rw [List.foldl_cons, h, min_eq_left hax]
      · right
        rw [List.foldl_cons, h, min_eq_right hxa]
        exact List.mem_cons_self x xs
    · right
      rw [List.foldl_cons]
      exact List.mem_cons_of_mem x h

theorem foldl_min_map_sub (c : ℚ) (l : List ℚ) :
    ∀ a : ℚ, (l.map (fun e => e - c)).foldl min (a - c) = l.foldl min a - c := by
  induction l with
  | nil => intro a; rfl
  | cons x xs ih =>
    intro a
    rw [List.map_cons, List.foldl_cons, List.foldl_cons, min_sub_sub_right]
    exact ih (min a x)

theorem listMin_le (es : List ℚ) (x : ℚ) (hx : x ∈ es) : listMin es ≤ x := by
  cases es with
  | nil => cases hx
  | cons y ys =>
    rcases List.mem_cons.mp hx with h | h
    · subst h
      exact foldl_min_le_init ys x
    · exact foldl_min_le_mem ys y x h

theorem listMin_mem (es : List ℚ) (h : es ≠ []) : listMin es ∈ es := by
  cases es with
  | nil => exact absurd rfl h
  | cons y ys =>
    rcases foldl_min_mem_or ys y with h0 | hmem
    · rw [listMin, h0]
      exact List.mem_cons_self y ys
    · exact List.mem_cons_of_mem y hmem

theorem listMin_map_sub (es : List ℚ) (h : es ≠ []) (c : ℚ) :
    listMin (es.map (fun e => e - c)) = listMin es - c := by
  cases es with
  | nil => exact absurd rfl h
  | cons y ys =>
    rw [List.map_cons, listMin, listMin]
    exact foldl_min_map_sub c ys y

/-- C5: the baseline shift maps every collected energy to itself minus the
raw minimum of the whole collected sequence (the minimum being taken after
all energies are collected), so the minimum of the shifted sequence is
exactly 0: every shifted value is non-negative and 0 is attained. -/
theorem shiftEnergies_baseline (es : List ℚ) (h : es ≠ []) :
    (∀ i : Nat, (shiftEnergies es)[i]? =
      (es[i]?).map (fun e => e - listMin es)) ∧
    listMin (shiftEnergies es) = 0 ∧
    (∀ y ∈ shiftEnergies es, 0 ≤ y) ∧
    (0 : ℚ) ∈ shiftEnergies es := by
  refine ⟨?_, ?_, ?_, ?_⟩
  · intro i
    exact List.getElem?_map (fun e => e - listMin es) es i
  · rw [shiftEnergies, listMin_map_sub es h (listMin es), sub_self]
  · intro y hy
    rcases List.mem_map.mp hy with ⟨e, he, rfl⟩
    have := listMin_le es e he
    linarith
  · exact List.mem_map.mpr ⟨listMin es, listMin_mem es h, sub_self (listMin es)⟩

/-- Witness for C5 at the concrete raw energies [2, 5, 1]: the shifted
sequence is [1, 4, 0], its minimum is 0. -/
theorem shiftEnergies_baseline_witness :
    listMin (shiftEnergies [2, 5, 1]) = 0 ∧
    ((0 : ℚ) ∈ shiftEnergies [2, 5, 1]) ∧
    shiftEnergies [2, 5, 1] = [1, 4, 0] :=
  ⟨(shiftEnergies_baseline [2, 5, 1] (by simp)).2.1,
   (shiftEnergies_baseline [2, 5, 1] (by simp)).2.2.2,
   by norm_num [shiftEnergies, listMin]⟩

/-! ### C6: energy profile ordering -/

theorem bandPlotOrder_fst_sorted (names : List String) :
    ((bandPlotOrder names).map Prod.fst).Sorted (· ≤ ·) := by
  have hs : List.Sorted (fun a b : Nat × String => a.1 ≤ b.1)
      (bandPlotOrder names) :=
    List.sorted_insertionSort _ _
  exact List.Pairwise.map Prod.fst (fun a b hab => hab) hs

/-- C6: the chart synthesizer processes the discovered structure files in
ascending order of the index parsed from the filename: the processed list
is a permutation of the matched `(index, name)` pairs, a pair occurs in it
iff its name occurs in the directory listing and the matcher parses that
index from it, the processed index sequence is sorted ascending, and it is
identical for any two directory enumerations that are permutations of each
other (non-matching filenames contribute nothing). -/
theorem bandPlotOrder_ascending (names : List String) :
    ((bandPlotOrder names).map Prod.fst).Sorted (· ≤ ·) ∧
    ((bandPlotOrder names).Perm (collectFiles names)) ∧
    (∀ i : Nat, ∀ n : String, ((i, n) ∈ bandPlotOrder names ↔
      (n ∈ names ∧ matchImagePOSCAR n = some i))) ∧
    (∀ names2 : List String, names.Perm names2 →
      (bandPlotOrder names).map Prod.fst =
        (bandPlotOrder names2).map Prod.fst) := by
  refine ⟨bandPlotOrder_fst_sorted names, List.perm_insertionSort _ _, ?_, ?_⟩
  · intro i n
    unfold bandPlotOrder sortFiles collectFiles
    rw [(List.perm_insertionSort _ _).mem_iff, List.mem_filterMap]
    constructor
    · rintro ⟨a, ha, heq⟩
      rcases Option.map_eq_some'.mp heq with ⟨j, hj, hpair⟩
      injection hpair with h1 h2
      subst h1
      subst h2
      exact ⟨ha, hj⟩
    · rintro ⟨hn, hm⟩
      exact ⟨n, hn, by rw [hm]; rfl⟩
  · intro names2 hperm
    have hp : ((bandPlotOrder names).map Prod.fst).Perm
        ((bandPlotOrder names2).map Prod.fst) :=
      List.Perm.map Prod.fst
        (((List.perm_insertionSort _ _).trans (hperm.filterMap _)).trans
          (List.perm_insertionSort _ _).symm)
    exact List.eq_of_perm_of_sorted hp (bandPlotOrder_fst_sorted names)
      (bandPlotOrder_fst_sorted names2)

/-- Witness for C6: files discovered as 002, 000, junk, 001 are processed
as 000, 001, 002; a different enumeration of the same files yields the same
index order. -/
theorem bandPlotOrder_ascending_witness :
    (["image_002.POSCAR", "image_000.POSCAR", "junk.txt",
        "image_001.POSCAR"].Perm
      ["image_000.POSCAR", "image_002.POSCAR", "junk.txt",
        "image_001.POSCAR"]) ∧
    ((bandPlotOrder ["image_002.POSCAR", "image_000.POSCAR", "junk.txt",
        "image_001.POSCAR"]).map Prod.fst =
      (bandPlotOrder ["image_000.POSCAR", "image_002.POSCAR", "junk.txt",
        "image_001.POSCAR"]).map Prod.fst) ∧
    bandPlotOrder ["image_002.POSCAR", "image_000.POSCAR", "junk.txt",
        "image_001.POSCAR"] =
      [(0, "image_000.POSCAR"), (1, "image_001.POSCAR"),
       (2, "image_002.POSCAR")] :=
  ⟨List.Perm.swap "image_000.POSCAR" "image_002.POSCAR"
     ["junk.txt", "image_001.POSCAR"],
   (bandPlotOrder_ascending ["image_002.POSCAR", "image_000.POSCAR",
       "junk.txt", "image_001.POSCAR"]).2.2.2
     ["image_000.POSCAR", "image_002.POSCAR", "junk.txt",
       "image_001.POSCAR"]
     (List.Perm.swap "image_000.POSCAR" "image_002.POSCAR"
       ["junk.txt", "image_001.POSCAR"]),
   by decide⟩

/-! ### C8: raster format normalization -/

theorem revDropExt_append_tga (bs : List Char) :
    revDropExt ((bs ++ ['.', 't', 'g', 'a']).reverse) = bs.reverse := by
  rw [List.reverse_append]
  simp [revDropExt, List.dropWhile]

/-- C8: per rendered raster file, an image whose mode is neither RGB nor
RGBA is converted to RGBA (pixel data carried over), any other image is
preserved unchanged by the defensive copy; exactly one output entry is
produced per input, named by replacing the `.tga` extension of the same
base name with `.png`; and every pre-existing directory entry — in
particular every original TGA — is retained. -/
theorem tga2png_convert (dir : List (String × PILImage)) :
    (∀ img : PILImage, (img.mode = "RGB" ∨ img.mode = "RGBA") →
      convertFrame img = img) ∧
    (∀ img : PILImage, img.mode ≠ "RGB" → img.mode ≠ "RGBA" →
      ((convertFrame img).mode = "RGBA" ∧ (convertFrame img).data = img.data)) ∧
    (∀ tgas : List (String × PILImage), (tga2png tgas).length = tgas.length) ∧
    (∀ tgas : List (String × PILImage), ∀ i : Nat, (tga2png tgas)[i]? =
      (tgas[i]?).map (fun e => (withSuffixPng e.1, convertFrame e.2))) ∧
    (∀ base : String, withSuffixPng (base ++ ".tga") = base ++ ".png") ∧
    (∀ e ∈ dir, e ∈ tga2pngDir dir) ∧
    (∀ n : String, ∀ im : PILImage, (n, im) ∈ dir → isTgaFrame n = true →
      (withSuffixPng n, convertFrame im) ∈ tga2pngDir dir) := by
  refine ⟨?_, ?_, ?_, ?_, ?_, ?_, ?_⟩
  · intro img hmode
    unfold convertFrame
    rw [if_pos hmode]
  · intro img h1 h2
    unfold convertFrame
    rw [if_neg (fun hc => hc.elim h1 h2)]
    exact ⟨rfl, rfl⟩
  · intro tgas
    exact List.length_map tgas _
  · intro tgas i
    exact List.getElem?_map _ tgas i
  · intro base
    obtain ⟨l⟩ := base
    have hdata : (String.mk l ++ ".tga").toList = l ++ ['.', 't', 'g', 'a'] := rfl
    rw [withSuffixPng, hdata, revDropExt_append_tga, List.reverse_reverse]
    rfl
  · intro e he
    exact List.mem_append_left _ he
  · intro n im hmem htga
    have h1 : (n, im) ∈ dir.filter (fun e => isTgaFrame e.1) :=
      List.mem_filter.mpr ⟨hmem, htga⟩
    have h2 : (n, im) ∈ sortByName (dir.filter (fun e => isTgaFrame e.1)) :=
      (List.perm_insertionSort _ _).mem_iff.mpr h1
    exact List.mem_append_right _
      (List.mem_map_of_mem (fun e => (withSuffixPng e.1, convertFrame e.2)) h2)

/-- Witness for C8 at a concrete directory holding two rendered TGA frames
(one palettized, one RGB) and an unrelated file: the palettized frame is
converted to RGBA, the RGB one is copied unchanged, both PNG names replace
only the extension, and all three original entries survive. -/
theorem tga2png_convert_witness :
    convertFrame ⟨"RGB", 7⟩ = (⟨"RGB", 7⟩ : PILImage) ∧
    ((convertFrame ⟨"P", 3⟩).mode = "RGBA" ∧
      (convertFrame ⟨"P", 3⟩).data = (3 : Nat)) ∧
    withSuffixPng ("frame_00" ++ ".tga") = "frame_00" ++ ".png" ∧
    ("frame_00.tga", (⟨"P", 3⟩ : PILImage)) ∈ tga2pngDir dirW ∧
    (withSuffixPng "frame_00.tga", convertFrame ⟨"P", 3⟩) ∈ tga2pngDir dirW ∧
    tga2pngDir dirW =
      [("frame_00.tga", ⟨"P", 3⟩), ("frame_01.tga", ⟨"RGB", 7⟩),
       ("style.vmd", ⟨"TXT", 0⟩), ("frame_00.png", ⟨"RGBA", 3⟩),
       ("frame_01.png", ⟨"RGB", 7⟩)] :=
  ⟨(tga2png_convert dirW).1 ⟨"RGB", 7⟩ (Or.inl rfl),
   (tga2png_convert dirW).2.1 ⟨"P", 3⟩ (by decide) (by decide),
   (tga2png_convert dirW).2.2.2.2.1 "frame_00",
   (tga2png_convert dirW).2.2.2.2.2.1 ("frame_00.tga", ⟨"P", 3⟩) (by decide),
   (tga2png_convert dirW).2.2.2.2.2.2 "frame_00.tga" ⟨"P", 3⟩ (by decide)
     (by decide),
   by decide⟩

end Visneb
